import Mathlib

/-!
# Verification of the concurrent stage-detection and action-scheduling engine

Shallow embedding of `fast_multi_thread_purchase.py`: the stage chain
(`STAGE_CONFIGS`), the human-click rhythm generator (`HumanClickRhythm`),
the pixel detector (`_detect_stage`), the per-stage action-executor loops
(`_execute_stage_action`), and the mutex-protected stage-transition
protocol of the classifier threads (`thread_detect_stage`), modelled as a
labelled transition system whose atomic steps are the lock-held blocks of
the source.

Real-valued times and delays are modelled as rationals; the random draws
of `random.random`, `random.uniform` and `random.betavariate` are passed
in explicitly as values (with their ranges stated as hypotheses where
needed).
-/

namespace FastPurchase

/-! ## Stage configuration (`STAGE_CONFIGS`)

The configured chain is stage1 → stage2 → stage3 → stage4, with
`next_stage = None` on stage4 (the terminal stage).  `first_stage` is the
first key of `STAGE_CONFIGS` (`list(STAGE_CONFIGS.keys())[0]`). -/

inductive Stage where
  | stage1
  | stage2
  | stage3
  | stage4
  deriving DecidableEq, Repr

instance : Fintype Stage :=
  ⟨⟨{Stage.stage1, Stage.stage2, Stage.stage3, Stage.stage4}, by decide⟩, by
    intro x; cases x <;> decide⟩

/-- `config['next_stage']` for each stage of `STAGE_CONFIGS`. -/
def next_stage : Stage → Option Stage
  | .stage1 => some .stage2
  | .stage2 => some .stage3
  | .stage3 => some .stage4
  | .stage4 => none

/-- `list(STAGE_CONFIGS.keys())[0]`: the first configured stage. -/
def first_stage : Stage := .stage1

/-- Position of a stage in the configured chain (not in the source; used
to state ordering facts about the chain). -/
def stageIdx : Stage → ℕ
  | .stage1 => 0
  | .stage2 => 1
  | .stage3 => 2
  | .stage4 => 3

/-- Position of an optional current stage: `None` sits strictly before
every stage. -/
def idxOpt : Option Stage → ℕ
  | none => 0
  | some a => stageIdx a + 1

/-! ## Run parameters (module-level constants of the source) -/

/-- `MAX_CLICKS_PER_STAGE = 20`. -/
def MAX_CLICKS_PER_STAGE : ℕ := 20

/-- `STAGE_EXECUTION_TIMEOUT = 4.0` seconds. -/
def STAGE_EXECUTION_TIMEOUT : ℚ := 4

/-- `LAST_STAGE_EXECUTION_DURATION_MIN = 1.50` seconds. -/
def LAST_STAGE_EXECUTION_DURATION_MIN : ℚ := 3/2

/-- `LAST_STAGE_EXECUTION_DURATION_MAX = 3.0` seconds. -/
def LAST_STAGE_EXECUTION_DURATION_MAX : ℚ := 3

/-- `MIN_STAGE_DURATION = 0.25` seconds (local constant of
`thread_detect_stage`). -/
def MIN_STAGE_DURATION : ℚ := 1/4

/-- `STAGE_DISAPPEAR_THRESHOLD = 3` (local constant of the last-stage
branch of `_execute_stage_action`). -/
def STAGE_DISAPPEAR_THRESHOLD : ℕ := 3

/-- `min_execution_time = LAST_STAGE_EXECUTION_DURATION_MIN * 0.5`. -/
def min_execution_time : ℚ := LAST_STAGE_EXECUTION_DURATION_MIN * (1/2)

/-! ## Rhythm generator (`HumanClickRhythm`) -/

/-- `acceleration_curve` values of the stage personalities. -/
inductive Curve where
  | slow_start
  | fast_start
  | steady
  deriving DecidableEq, Repr

/-- A stage personality, as returned by
`HumanClickRhythm._get_stage_personality` (the `name` string is dropped;
`rhythm_range` is split into `rhythm_min`/`rhythm_max`). -/
structure Personality where
  base_rhythm : ℚ
  rhythm_min : ℚ
  rhythm_max : ℚ
  acceleration_curve : Curve
  pause_frequency : ℚ
  mistake_rate : ℚ
  tension_level : ℚ
  deriving DecidableEq, Repr

/-- The `personalities` table of `_get_stage_personality`, including its
fallback `personalities.get(stage_name, personalities['stage1'])` for a
name outside the table (represented by `none`). -/
def get_stage_personality : Option Stage → Personality
  | some .stage1 =>
      { base_rhythm := 35/100, rhythm_min := 25/100, rhythm_max := 50/100
        acceleration_curve := .slow_start, pause_frequency := 15/100
        mistake_rate := 1/100, tension_level := 2/10 }
  | some .stage2 =>
      { base_rhythm := 20/100, rhythm_min := 15/100, rhythm_max := 35/100
        acceleration_curve := .fast_start, pause_frequency := 8/100
        mistake_rate := 3/100, tension_level := 7/10 }
  | some .stage3 =>
      { base_rhythm := 28/100, rhythm_min := 20/100, rhythm_max := 40/100
        acceleration_curve := .steady, pause_frequency := 12/100
        mistake_rate := 2/100, tension_level := 5/10 }
  | some .stage4 =>
      { base_rhythm := 22/100, rhythm_min := 18/100, rhythm_max := 32/100
        acceleration_curve := .fast_start, pause_frequency := 10/100
        mistake_rate := 2/100, tension_level := 6/10 }
  | none =>
      { base_rhythm := 35/100, rhythm_min := 25/100, rhythm_max := 50/100
        acceleration_curve := .slow_start, pause_frequency := 15/100
        mistake_rate := 1/100, tension_level := 2/10 }

/-- The session-persona scaling applied in `HumanClickRhythm.__init__`
when `session_persona` is supplied: `base_rhythm` and both ends of
`rhythm_range` are multiplied by `rhythm_scale`, and `pause_frequency`,
`mistake_rate`, `tension_level` by their own factors. -/
def scale_personality (p : Personality)
    (rhythm_scale pause_scale mistake_scale tension_scale : ℚ) : Personality :=
  { base_rhythm := p.base_rhythm * rhythm_scale
    rhythm_min := p.rhythm_min * rhythm_scale
    rhythm_max := p.rhythm_max * rhythm_scale
    acceleration_curve := p.acceleration_curve
    pause_frequency := p.pause_frequency * pause_scale
    mistake_rate := p.mistake_rate * mistake_scale
    tension_level := p.tension_level * tension_scale }

/-- The `rhythm_scale` of the four entries of
`_generate_session_persona`, as a function of the persona index and the
`random.uniform` draw `u ∈ [0,1]` (`uniform(a,b) = a + u*(b-a)`):
冷静型 `uniform(1.0,1.1)`, 手抖型 `uniform(0.9,1.0)`,
急躁型 `uniform(0.85,0.95)`, 谨慎型 `uniform(1.05,1.15)`. -/
def persona_rhythm_scale : Fin 4 → ℚ → ℚ
  | 0, u => 1 + u * (1/10)
  | 1, u => 9/10 + u * (1/10)
  | 2, u => 17/20 + u * (1/10)
  | 3, u => 21/20 + u * (1/10)

/-- Mutable state of a `HumanClickRhythm` instance. -/
structure RhythmState where
  current_rhythm : ℚ
  rhythm_momentum : ℚ
  stage_start_time : ℚ
  click_count_in_stage : ℕ
  last_long_pause_time : ℚ
  long_pause_cooldown : ℚ
  stage_personality : Personality
  deriving DecidableEq, Repr

/-- `HumanClickRhythm.__init__` at wall-clock time `t0` with an already
scaled (or unscaled) personality `p`: `current_rhythm` is initialised to
`p['base_rhythm']`, `last_long_pause_time = 0`,
`long_pause_cooldown = 5.0`, `click_count_in_stage = 0`. -/
def initRhythm (p : Personality) (t0 : ℚ) : RhythmState :=
  { current_rhythm := p.base_rhythm
    rhythm_momentum := 0
    stage_start_time := t0
    click_count_in_stage := 0
    last_long_pause_time := 0
    long_pause_cooldown := 5
    stage_personality := p }

/-- `_calculate_target_rhythm`.  `u_steady` is the `random.uniform(0.95,
1.05)` draw of the `steady` branch, passed as a value in `[0.95, 1.05]`
(i.e. `0.95 + u*0.1` with `u ∈ [0,1]` folded in by the caller). -/
def calculate_target_rhythm (p : Personality) (click_count : ℕ)
    (stage_elapsed : ℚ) (u_steady : ℚ) : ℚ :=
  match p.acceleration_curve with
  | .slow_start =>
      if stage_elapsed < 1 then
        let progress := min (stage_elapsed / 1) 1
        p.base_rhythm * (1 + (3/10) * (1 - progress))
      else
        p.base_rhythm * (9/10)
  | .fast_start =>
      if click_count < 3 then p.base_rhythm * (85/100)
      else if click_count < 8 then p.base_rhythm * (95/100)
      else p.base_rhythm * (88/100)
  | .steady => p.base_rhythm * u_steady

/-- `_apply_momentum`: returns the new `current_rhythm` and the new
`rhythm_momentum`. -/
def apply_momentum (current target tension : ℚ) : ℚ × ℚ :=
  let momentum_factor := 1/2 + tension * (2/10)
  (current * (1 - momentum_factor) + target * momentum_factor,
   (target - current) * (3/10))

/-- `_should_take_long_pause`.  `rand` is the `random.random()` draw; the
`stage_elapsed` argument is accepted and ignored exactly as in the
source. -/
def should_take_long_pause (s : RhythmState) (p : Personality)
    (stage_elapsed : ℚ) (now : ℚ) (rand : ℚ) : Bool :=
  let _ := stage_elapsed
  if now - s.last_long_pause_time < s.long_pause_cooldown then false
  else if rand < p.pause_frequency then
    decide (3 ≤ s.click_count_in_stage)
  else false

/-- `_sample_right_skewed_delay`.  `beta` is the `random.betavariate(2,5)`
draw (a value in `[0,1]`).  The `center` argument is accepted and, as in
the source, never used. -/
def sample_right_skewed_delay (center : ℚ) (rhythm_min rhythm_max : ℚ)
    (beta : ℚ) : ℚ :=
  let _ := center
  let delay := rhythm_min + beta * (rhythm_max - rhythm_min)
  max (1/10) (min delay 1)

/-- The random draws consumed by one `get_next_delay` call. -/
structure Draws where
  /-- value of `random.uniform(0.95, 1.05)` in the `steady` curve branch -/
  u_steady : ℚ
  /-- value of `random.random()` in `_should_take_long_pause` -/
  pauseRand : ℚ
  /-- the `[0,1]` position of `random.uniform(0.3, 0.8)`:
      `pause_duration = 0.3 + pauseDur01 * 0.5` -/
  pauseDur01 : ℚ
  /-- value of `random.betavariate(2, 5)` -/
  beta : ℚ
  deriving DecidableEq, Repr

/-- `HumanClickRhythm.get_next_delay` at wall-clock time `now`: returns
the delay, whether the long-pause branch was taken, and the updated
state.  (The source reads `time.perf_counter()` a few instants apart
within one call; all reads are modelled as the single instant `now`.) -/
def get_next_delay (s : RhythmState) (now : ℚ) (d : Draws) :
    ℚ × Bool × RhythmState :=
  let personality := s.stage_personality
  let stage_elapsed := now - s.stage_start_time
  let target_rhythm :=
    calculate_target_rhythm personality s.click_count_in_stage stage_elapsed d.u_steady
  let cm := apply_momentum s.current_rhythm target_rhythm personality.tension_level
  let s1 := { s with current_rhythm := cm.1, rhythm_momentum := cm.2 }
  if should_take_long_pause s1 personality stage_elapsed now d.pauseRand then
    let pause_duration := 3/10 + d.pauseDur01 * (1/2)
    (pause_duration, true,
      { s1 with last_long_pause_time := now,
                current_rhythm := s1.current_rhythm * (13/10) })
  else
    (sample_right_skewed_delay s1.current_rhythm
       personality.rhythm_min personality.rhythm_max d.beta, false, s1)

/-- `HumanClickRhythm.should_make_mistake`: `rand < mistake_rate`. -/
def should_make_mistake (s : RhythmState) (rand : ℚ) : Bool :=
  rand < s.stage_personality.mistake_rate

/-- `HumanClickRhythm.on_click_executed`. -/
def on_click_executed (s : RhythmState) : RhythmState :=
  { s with click_count_in_stage := s.click_count_in_stage + 1 }

/-! ## Pixel detection (`_detect_stage`)

A sample point (`detector`) is the compiled tuple `(x, y, tr, tg, tb,
tol)` of `compiled_detectors_cache`; coordinates are Python ints, so they
are modelled as `ℤ`.  A frame row stores channel triples `(c0, c1, c2)`;
the code reads them as RGB or reversed depending on `frame_format`.
Indexing follows numpy semantics: index `i` into an axis of size `n` is
valid for `-n ≤ i < n`, a negative `i` addressing position `n + i`;
anything below `-n` raises `IndexError`.  The source guards only
`x >= size` / `y >= size` before indexing, so negative indices reach
numpy.  Results are `Option Bool`: `none` models a raised exception. -/

/-- One compiled sample point `(x, y, tr, tg, tb, tol)`. -/
structure Detector where
  x : ℤ
  y : ℤ
  tr : ℕ
  tg : ℕ
  tb : ℕ
  tol : ℕ
  deriving DecidableEq, Repr

/-- Full frame (`latest_frame`): a `height × width` grid of channel
triples plus the `frame_format` flag (`'BGR'` or not). -/
structure FullFrame where
  width : ℕ
  height : ℕ
  pix : ℕ → ℕ → ℕ × ℕ × ℕ
  is_bgr : Bool

/-- Slim frame (`latest_slim_frame`): a dict from row key to (row width,
row pixels), plus the shared `frame_format` flag. -/
structure SlimFrame where
  rows : ℤ → Option (ℕ × (ℕ → ℕ × ℕ × ℕ))
  is_bgr : Bool

/-- numpy indexing of an axis of size `n` at Python int `i`: `none` is an
`IndexError` (only possible here for `i < -n`, since the source returns
early for `i ≥ n`). -/
def npIndex (n : ℕ) (i : ℤ) : Option ℕ :=
  if 0 ≤ i then
    if i < (n : ℤ) then some i.toNat else none
  else
    if 0 ≤ (n : ℤ) + i then some ((n : ℤ) + i).toNat else none

/-- Channel read of `_detect_stage`: `pixel[2],pixel[1],pixel[0]` for BGR
frames, `pixel[0],pixel[1],pixel[2]` otherwise. -/
def readRGB (is_bgr : Bool) (p : ℕ × ℕ × ℕ) : ℕ × ℕ × ℕ :=
  if is_bgr then (p.2.2, p.2.1, p.1) else p

/-- The inline tolerance test of `_detect_stage`:
`abs(r-tr) <= tol and abs(g-tg) <= tol and abs(b-tb) <= tol`. -/
def color_close (r g b tr tg tb : ℕ) (tol : ℕ) : Bool :=
  decide (((r : ℤ) - tr).natAbs ≤ tol) &&
    decide (((g : ℤ) - tg).natAbs ≤ tol) &&
    decide (((b : ℤ) - tb).natAbs ≤ tol)

/-- `_detect_stage` on a full frame (`is_slim` false): for each detector,
first the guard `y >= shape[0] or x >= shape[1]` returns `False`, then
the pixel is read with numpy indexing and compared; the stage matches iff
every detector matches. -/
def detect_stage_full (f : FullFrame) : List Detector → Option Bool
  | [] => some true
  | d :: rest =>
    if (f.height : ℤ) ≤ d.y ∨ (f.width : ℤ) ≤ d.x then some false
    else
      match npIndex f.height d.y, npIndex f.width d.x with
      | some yi, some xi =>
        let rgb := readRGB f.is_bgr (f.pix yi xi)
        if color_close rgb.1 rgb.2.1 rgb.2.2 d.tr d.tg d.tb d.tol then
          detect_stage_full f rest
        else some false
      | _, _ => none

/-- `_detect_stage` on a slim frame (`is_slim` true): for each detector,
`y not in frame_data` returns `False`, then `x >= row.shape[0]` returns
`False`, then `row[x]` is read with numpy indexing on the row. -/
def detect_stage_slim (f : SlimFrame) : List Detector → Option Bool
  | [] => some true
  | d :: rest =>
    match f.rows d.y with
    | none => some false
    | some row =>
      if (row.1 : ℤ) ≤ d.x then some false
      else
        match npIndex row.1 d.x with
        | some xi =>
          let rgb := readRGB f.is_bgr (row.2 xi)
          if color_close rgb.1 rgb.2.1 rgb.2.2 d.tr d.tg d.tb d.tol then
            detect_stage_slim f rest
          else some false
        | none => none

/-! ## Action executor loops (`_execute_stage_action`)

The executor's shared-state reads (`current_stage` under `stage_lock`,
the latest full frame, the rhythm/mistake draws) depend on the
environment, so one loop iteration is driven by an observation record;
the loop consumes a list of observations, an empty list standing for
`running` being cleared (global shutdown).  `clicks` is the thread-local
`click_count`; the returned `ℕ` is its value when the loop stops, i.e.
the total number of taps performed (mistake double-taps included). -/

/-- Observations consumed by one iteration of the non-terminal branch:
`elapsed = time.perf_counter() - execution_start` at the iteration top,
the `current_stage` read under the lock at the top, the `current_stage`
read under the lock of a forced-advance enqueue, and the
`should_make_mistake()` draw. -/
structure IterObs where
  elapsed : ℚ
  cur : Option Stage
  curEnq : Option Stage
  mistake : Bool
  deriving DecidableEq, Repr

/-- How the non-terminal executor loop stopped.  The `Bool` of `budget`
and `timeoutHit` records whether `ForceAdvanceRequest{stage, successor}`
was actually appended to `force_advance_queue` (the source re-checks
`current_stage == stage_name` under the lock and otherwise drops the
request). -/
inductive ExecOutcome where
  | advanced
  | budget (enqueued : Bool)
  | timeoutHit (enqueued : Bool)
  | shutdown
  deriving DecidableEq, Repr

/-- The non-terminal branch of `_execute_stage_action` for `stage` with
configured successor `nextS`: per iteration, break when
`current == expected_next_stage`; else if `click_count >=
MAX_CLICKS_PER_STAGE`, enqueue (if still current) and break; else if
`elapsed >= STAGE_EXECUTION_TIMEOUT`, enqueue (if still current) and
break; else possibly mistake-double-tap (only when `click_count > 0`),
tap, and loop. -/
def runNonTerminal (stage nextS : Stage) (clicks : ℕ) :
    List IterObs → ℕ × ExecOutcome
  | [] => (clicks, .shutdown)
  | o :: rest =>
    if o.cur = some nextS then (clicks, .advanced)
    else if MAX_CLICKS_PER_STAGE ≤ clicks then
      (clicks, .budget (o.curEnq = some stage))
    else if STAGE_EXECUTION_TIMEOUT ≤ o.elapsed then
      (clicks, .timeoutHit (o.curEnq = some stage))
    else
      runNonTerminal stage nextS
        ((if o.mistake ∧ 0 < clicks then clicks + 1 else clicks) + 1) rest

/-- Observations consumed by one iteration of the last-stage branch:
`elapsed` at the iteration top, the `current_stage` read under the lock,
the result of re-detecting the stage on the latest full frame (`none`
when no frame is available yet), and the mistake draw. -/
structure TermObs where
  elapsed : ℚ
  cur : Option Stage
  det : Option Bool
  mistake : Bool
  deriving DecidableEq, Repr

/-- How the last-stage executor loop stopped. -/
inductive TermOutcome where
  | lostCurrent
  | disappeared
  | durationReached
  | budget
  | shutdown
  deriving DecidableEq, Repr

/-- The last-stage branch of `_execute_stage_action` for `stage`, with
`duration` the `random.uniform(LAST_STAGE_EXECUTION_DURATION_MIN,
LAST_STAGE_EXECUTION_DURATION_MAX)` draw and `fails` the thread-local
`fail_count`: per iteration, break when the current stage changed; run
the disappearance check only once `elapsed >= min_execution_time`
(incrementing `fail_count` on a failed re-detection, resetting it on a
successful one, breaking at `STAGE_DISAPPEAR_THRESHOLD`); break when
`elapsed >= duration`; break when `click_count >= MAX_CLICKS_PER_STAGE`;
else possibly mistake-double-tap, tap, and loop. -/
def termFails (fails : ℕ) (o : TermObs) : ℕ :=
  if min_execution_time ≤ o.elapsed then
    match o.det with
    | none => fails
    | some true => 0
    | some false => fails + 1
  else fails

def runTerminal (stage : Stage) (duration : ℚ) (clicks fails : ℕ) :
    List TermObs → ℕ × TermOutcome
  | [] => (clicks, .shutdown)
  | o :: rest =>
    if o.cur ≠ some stage then (clicks, .lostCurrent)
    else if min_execution_time ≤ o.elapsed ∧ o.det = some false ∧
        STAGE_DISAPPEAR_THRESHOLD ≤ termFails fails o then
      (clicks, .disappeared)
    else if duration ≤ o.elapsed then (clicks, .durationReached)
    else if MAX_CLICKS_PER_STAGE ≤ clicks then (clicks, .budget)
    else
      runTerminal stage duration
        ((if o.mistake ∧ 0 < clicks then clicks + 1 else clicks) + 1)
        (termFails fails o) rest

/-- The sequence of evaluated disappearance checks of a last-stage run:
one Boolean per iteration whose `elapsed` has passed
`min_execution_time` and whose frame was available (`filterMap` keeps
`o.det` exactly then). -/
def evalChecks (obs : List TermObs) : List Bool :=
  obs.filterMap fun o =>
    if min_execution_time ≤ o.elapsed then o.det else none

/-! ## The stage scheduler as a labelled transition system

Shared state (`current_stage`, `stage_enter_time`, `stage_executed`,
`force_advance_queue`) is only ever read/written inside `with
self.stage_lock` blocks, so each lock-held block of the source is one
atomic step.  Thread-local control is over-approximated: a thread may
take a step whenever its own in-lock guard holds (values it read under
*earlier* lock acquisitions may be stale by then, which the
over-approximation absorbs), so every interleaving of the Python program
is a trace of this system.  Wall-clock time `now` is a rational that
`tick` steps advance; an executor's per-iteration sleep advances it by at
least `0.1` seconds, the structural lower bound of `get_next_delay`
proved in `get_next_delay_pos` below.

Ghost fields (not in the source, used only to state properties):
`entered` marks stages written to `current_stage` by a classifier
transition (detection or forced advance), and `launches` counts action
executor thread starts per stage. -/

/-- Thread-local control state of a non-terminal action executor:
`idle` = thread not yet created; `launched` = `threading.Thread.start()`
done but the body's `execution_start = time.perf_counter()` not yet run;
`running start clicks` = inside the click loop; `done` = loop exited. -/
inductive ExecPhase where
  | idle
  | launched
  | running (start : ℚ) (clicks : ℕ)
  | done
  deriving DecidableEq, Repr

/-- Global state of the engine. -/
structure Sys where
  now : ℚ
  current : Option Stage
  enterTime : Stage → ℚ
  executed : Stage → Bool
  queue : List (Stage × Stage)
  /-- per-classifier-thread popped forced-advance event
      (`force_advance_event` between its two lock blocks) -/
  popped : Stage → Option (Stage × Stage)
  execs : Stage → ExecPhase
  /-- ghost: stage ever written to `current_stage` by a classifier -/
  entered : Stage → Bool
  /-- ghost: number of action-executor threads started for the stage -/
  launches : Stage → ℕ

/-- The shared effect of both classifier transition blocks (detection and
forced advance) on stage `b`: write `current_stage = b`, record
`stage_enter_time[b]`, and — only if `b` is not yet in `stage_executed` —
add it and start exactly one action executor thread. -/
def applyTransition (s : Sys) (b : Stage) : Sys :=
  { s with
    current := some b
    enterTime := Function.update s.enterTime b s.now
    entered := fun x => x = b || s.entered x
    executed := fun x => x = b || s.executed x
    launches :=
      if s.executed b then s.launches
      else Function.update s.launches b (s.launches b + 1)
    execs :=
      if s.executed b then s.execs
      else Function.update s.execs b .launched }

/-- Step labels: which thread's lock-held block (or sleep) fired. -/
inductive Label where
  | tick (δ : ℚ)
  | detectTrans (b : Stage)
  | popForce (b : Stage)
  | forceTrans (b : Stage)
  | forceDrop (b : Stage)
  | execBegin (a : Stage)
  | execTap (a : Stage) (δ : ℚ) (k : ℕ)
  | enqBudget (a : Stage)
  | enqTimeout (a : Stage)
  | execStop (a : Stage)

/-- One atomic step of the engine. -/
inductive Step : Sys → Label → Sys → Prop where
  /-- time passes (threads sleeping / scheduler delays) -/
  | tick {s : Sys} (δ : ℚ) (hδ : 0 ≤ δ) :
      Step s (.tick δ) { s with now := s.now + δ }
  /-- the double-checked transition block of `thread_detect_stage` after
      a positive detection: under the lock, re-check the minimum dwell of
      the current stage, the gate (`None` ⇒ only the first stage; else
      only the current stage or its successor), and `current_stage !=
      stage_name`; then transition -/
  | detectTrans {s : Sys} (b : Stage)
      (hDwell : ∀ c, s.current = some c →
        MIN_STAGE_DURATION ≤ s.now - s.enterTime c)
      (hFirst : s.current = none → b = first_stage)
      (hGate : ∀ c, s.current = some c → b = c ∨ next_stage c = some b)
      (hNe : s.current ≠ some b) :
      Step s (.detectTrans b) (applyTransition s b)
  /-- the queue-scan block of `thread_detect_stage` for classifier `b`:
      remove the first entry with `src_stage == current_stage and
      target_stage == stage_name` and hold it locally -/
  | popForce {s : Sys} (b a : Stage) (q1 q2 : List (Stage × Stage))
      (hNone : s.popped b = none)
      (hQ : s.queue = q1 ++ (a, b) :: q2)
      (hCur : s.current = some a)
      (hFirstMatch : ∀ e ∈ q1, ¬(s.current = some e.1 ∧ e.2 = b)) :
      Step s (.popForce b)
        { s with queue := q1 ++ q2
                 popped := Function.update s.popped b (some (a, b)) }
  /-- the forced-advance transition block: re-check `current_stage ==
      force_advance_event[0]` under the lock, then transition into this
      classifier's stage -/
  | forceTrans {s : Sys} (b : Stage) (p : Stage × Stage)
      (hPop : s.popped b = some p)
      (hCur : s.current = some p.1) :
      Step s (.forceTrans b)
        { applyTransition s b with
            popped := Function.update s.popped b none }
  /-- the forced-advance re-check failed (`current_stage` moved on): the
      popped request is silently dropped -/
  | forceDrop {s : Sys} (b : Stage) (p : Stage × Stage)
      (hPop : s.popped b = some p)
      (hCur : s.current ≠ some p.1) :
      Step s (.forceDrop b)
        { s with popped := Function.update s.popped b none }
  /-- the executor thread body reaches `execution_start =
      time.perf_counter()` -/
  | execBegin {s : Sys} (a : Stage)
      (h : s.execs a = .launched) :
      Step s (.execBegin a)
        { s with execs := Function.update s.execs a (.running s.now 0) }
  /-- one tap iteration: entered only with `click_count <
      MAX_CLICKS_PER_STAGE` at the top; performs the tap plus possibly
      one mistake double-tap (`k ∈ {1,2}`) and then sleeps the rhythm
      delay `δ ≥ 0.1` -/
  | execTap {s : Sys} (a : Stage) (st : ℚ) (c : ℕ) (δ : ℚ) (k : ℕ)
      (hRun : s.execs a = .running st c)
      (hBudget : c < MAX_CLICKS_PER_STAGE)
      (hδ : 1/10 ≤ δ) (hk1 : 1 ≤ k) (hk2 : k ≤ 2) :
      Step s (.execTap a δ k)
        { s with now := s.now + δ
                 execs := Function.update s.execs a (.running st (c + k)) }
  /-- the click-budget break of the non-terminal branch: `click_count >=
      MAX_CLICKS_PER_STAGE`; under the lock, `expected_next_stage` exists
      and `current_stage == stage_name`, so the forced-advance request is
      appended -/
  | enqBudget {s : Sys} (a b : Stage) (st : ℚ) (c : ℕ)
      (hRun : s.execs a = .running st c)
      (hBudget : MAX_CLICKS_PER_STAGE ≤ c)
      (hNext : next_stage a = some b)
      (hCur : s.current = some a) :
      Step s (.enqBudget a)
        { s with queue := s.queue ++ [(a, b)]
                 execs := Function.update s.execs a .done }
  /-- the wall-clock-timeout break: `elapsed >=
      STAGE_EXECUTION_TIMEOUT`; under the lock, still current, so the
      forced-advance request is appended -/
  | enqTimeout {s : Sys} (a b : Stage) (st : ℚ) (c : ℕ)
      (hRun : s.execs a = .running st c)
      (hTimeout : STAGE_EXECUTION_TIMEOUT ≤ s.now - st)
      (hNext : next_stage a = some b)
      (hCur : s.current = some a) :
      Step s (.enqTimeout a)
        { s with queue := s.queue ++ [(a, b)]
                 execs := Function.update s.execs a .done }
  /-- any break path of the executor loop that does not enqueue
      (successor reached, shutdown, stale re-check, duration or budget of
      the terminal branch, disappearance) -/
  | execStop {s : Sys} (a : Stage) (st : ℚ) (c : ℕ)
      (hRun : s.execs a = .running st c) :
      Step s (.execStop a)
        { s with execs := Function.update s.execs a .done }

/-- Initial states of `run_timed_purchase` at the moment the classifier
threads are started: empty queue, nothing executed, no threads; either no
`initial_stage` was set (`current_stage` still `None`, all enter times at
their `dict.get` default `0`), or `current_stage = initial_stage` with
its enter time just recorded.  The ghost fields start at `false`/`0` —
in particular the `initial_stage` write is *not* a classifier
transition. -/
def Init (s : Sys) : Prop :=
  0 ≤ s.now ∧ s.queue = [] ∧
    (∀ a, s.executed a = false ∧ s.popped a = none ∧ s.execs a = .idle ∧
      s.entered a = false ∧ s.launches a = 0) ∧
    ((s.current = none ∧ ∀ a, s.enterTime a = 0) ∨
     (∃ b, s.current = some b ∧ s.enterTime b = s.now ∧
       ∀ a, a ≠ b → s.enterTime a = 0))

/-- Reflexive-transitive closure of `Step` (any labels). -/
inductive Reaches : Sys → Sys → Prop where
  | refl (s : Sys) : Reaches s s
  | tail {s t u : Sys} (h : Reaches s t) (l : Label) (st : Step t l u) :
      Reaches s u

/-- A state the engine can be in during some run. -/
def Reachable (s : Sys) : Prop := ∃ s0, Init s0 ∧ Reaches s0 s

/-- Forced-advance pairs currently pending: entries of
`force_advance_queue` plus events already popped and held by a
classifier thread. -/
def pendingPairs (s : Sys) (p : Stage × Stage) : Prop :=
  p ∈ s.queue ∨ ∃ b, s.popped b = some p

/-- The inductive invariant of the engine. -/
structure Inv (s : Sys) : Prop where
  /-- any stage that is or ever was current lies at or before the
      current position of the chain -/
  wasCur : ∀ a, (s.entered a = true ∨ s.current = some a) →
    stageIdx a + 1 ≤ idxOpt s.current
  /-- `stage_executed` is exactly the set of classifier-entered stages -/
  exec_entered : ∀ a, s.executed a = s.entered a
  /-- one executor launch per classifier-entered stage, none otherwise -/
  launch_count : ∀ a, s.launches a = if s.entered a = true then 1 else 0
  /-- a running executor started after its stage was entered, and has
      slept at least `0.1/2` seconds per performed tap -/
  exec_run : ∀ a st c, s.execs a = .running st c →
    s.enterTime a ≤ st ∧ st + (c : ℚ) * (1/20) ≤ s.now
  /-- enter timestamps never lie in the future -/
  enter_le : ∀ a, s.enterTime a ≤ s.now
  /-- every pending forced-advance pair targets the configured successor
      of its source, was enqueued at least the minimum dwell after its
      source stage was entered, and its source is at or before the
      current chain position -/
  pend : ∀ p, pendingPairs s p →
    next_stage p.1 = some p.2 ∧
    s.enterTime p.1 + MIN_STAGE_DURATION ≤ s.now ∧
    stageIdx p.1 + 1 ≤ idxOpt s.current
  /-- a popped event held by classifier `b` targets `b` -/
  pop_tgt : ∀ b p, s.popped b = some p → p.2 = b

/-- A sequence of `HumanClickRhythm` interactions: `get_next_delay`
calls (with their wall-clock time and draws) interleaved with
`on_click_executed` notifications. -/
inductive RhythmOp where
  | call (now : ℚ) (d : Draws)
  | click
  deriving DecidableEq, Repr

/-- Run a sequence of rhythm operations.  `n` is ghost instrumentation:
the number of `get_next_delay` calls since the most recent call that
returned a long pause (reset to `0` by a pause).  The log records, for
each call in order, whether it returned a long pause together with the
value of `n` just before the call. -/
def runRhythmOps (s : RhythmState) (n : ℕ) :
    List RhythmOp → RhythmState × ℕ × List (Bool × ℕ)
  | [] => (s, n, [])
  | .click :: rest => runRhythmOps (on_click_executed s) n rest
  | .call now d :: rest =>
    let r := get_next_delay s now d
    let n1 := if r.2.1 then 0 else n + 1
    let res := runRhythmOps r.2.2 n1 rest
    (res.1, res.2.1, (r.2.1, n) :: res.2.2)

/-! ## Auxiliary facts about the executor loops -/

/-- The `fail_count` update of one evaluated disappearance check. -/
def stepFail (a : ℕ) (r : Bool) : ℕ := if r then 0 else a + 1

/-! ## Concrete states and inputs used by the claim theorems -/

/-- Engine start with no `initial_stage`: `current_stage = None`. -/
def sys0 : Sys :=
  { now := 0, current := none, enterTime := fun _ => 0
    executed := fun _ => false, queue := [], popped := fun _ => none
    execs := fun _ => .idle, entered := fun _ => false
    launches := fun _ => 0 }

/-- Engine start as in `main()`: `initial_stage = "stage1"` is written to
`current_stage` (with its enter time) before the classifier threads
start. -/
def sys1 : Sys := { sys0 with current := some .stage1 }

/-- `sys1` after ten idle seconds (a complete run in which nothing is
ever detected). -/
def sys1T : Sys := { sys1 with now := sys1.now + 10 }

/-- Row-existence/low-bound side condition for a slim-frame detector:
if its row is retained, `x` does not reach below `-width` (so numpy
indexing cannot raise). -/
def rowLowOk (g : SlimFrame) (d : Detector) : Prop :=
  match g.rows d.y with
  | none => True
  | some wr => -(wr.1 : ℤ) ≤ d.x

/-- Out-of-bounds condition for a slim-frame detector: its row was not
retained, or `x` is at or past the row width. -/
def rowOob (g : SlimFrame) (d : Detector) : Prop :=
  match g.rows d.y with
  | none => True
  | some wr => (wr.1 : ℤ) ≤ d.x

/-- Iteration observations driving a non-terminal executor to a
21-tap budget stop: the stage stays current, the timeout never fires,
and the mistake draw succeeds every iteration. -/
def c4Obs : List IterObs :=
  List.replicate 12
    { elapsed := 0, cur := some .stage1, curEnq := some .stage1
      mistake := true }

/-- Iteration observations driving the terminal executor to a budget
stop: the stage stays current and keeps matching, the duration (2 s,
inside the configured `[1.5, 3.0]` window) never elapses, and the
mistake draw succeeds every iteration. -/
def c6Obs : List TermObs :=
  List.replicate 12
    { elapsed := 0, cur := some .stage4, det := some true, mistake := true }

/-- Terminal-run observations for the C7 witness: three straight failed
re-detections past the half-minimum point. -/
def c7Obs : List TermObs :=
  List.replicate 3
    { elapsed := 1, cur := some .stage4, det := some false, mistake := false }

/-- Full frame for the C5 counterexample: 4 × 4, with the pixel at row
0, column 3 matching the detector's target colour. -/
def c5Frame : FullFrame :=
  { width := 4, height := 4
    pix := fun y x => if y = 0 ∧ x = 3 then (9, 9, 9) else (0, 0, 0)
    is_bgr := false }

/-- A sample point with a negative x coordinate. -/
def c5Det : Detector := { x := -1, y := 0, tr := 9, tg := 9, tb := 9, tol := 0 }

/-- Full frame for the C5 witness. -/
def c5wFrame : FullFrame :=
  { width := 4, height := 4, pix := fun _ _ => (0, 0, 0), is_bgr := false }

/-- A sample point past the right edge of `c5wFrame`. -/
def c5wDet : Detector := { x := 5, y := 0, tr := 0, tg := 0, tb := 0, tol := 0 }

/-- Slim frame for the C5 witness: only row 0 is retained. -/
def c5wSlim : SlimFrame :=
  { rows := fun y => if y = 0 then some (4, fun _ => (0, 0, 0)) else none
    is_bgr := false }

/-- A sample point whose row is not retained in `c5wSlim`. -/
def c5wSlimDet : Detector := { x := 0, y := 7, tr := 0, tg := 0, tb := 0, tol := 0 }

/-- Draws used by the rhythm-claim witnesses and counterexample. -/
def cDraws : Draws := { u_steady := 1, pauseRand := 0, pauseDur01 := 0, beta := 0 }

/-- Witness personality for C8: stage2, scaled with the identity draw of
the first persona. -/
def c8Pers : Personality :=
  scale_personality (get_stage_personality (some .stage2))
    (persona_rhythm_scale 0 0) 1 1 1

/-- Draws for the C8 witness that avoid the pause branch. -/
def c8Draws : Draws := { u_steady := 1, pauseRand := 1, pauseDur01 := 0, beta := 0 }

/-- Rhythm operations for the C9 counterexample: three clicks, a call
that pauses at `t = 10`, one more click, and a call that pauses again at
`t = 16` — only one call (and one click) after the previous pause. -/
def c9Ops : List RhythmOp :=
  [.click, .click, .click, .call 10 cDraws, .click, .call 16 cDraws]

/-- A fresh stage3 rhythm state for the C10 witness. -/
def c10A : RhythmState := initRhythm (get_stage_personality (some .stage3)) 0

/-- The same state with a different smoothed rhythm and momentum. -/
def c10B : RhythmState :=
  { c10A with current_rhythm := 1, rhythm_momentum := 1 }

theorem stageIdx_next {a b : Stage} (h : next_stage a = some b) :
    stageIdx b = stageIdx a + 1 := by
  cases a <;> cases b <;> simp_all [next_stage, stageIdx]

theorem init_inv {s : Sys} (h : Init s) : Inv s := by
  obtain ⟨hnow, hq, hall, hcur⟩ := h
  constructor
  · intro a ha
    rcases ha with ha | ha
    · exact absurd ha (by simp [(hall a).2.2.2.1])
    · rcases hcur with ⟨_, _⟩ | ⟨b, hb, _, _⟩
      · simp_all
      · rw [ha] at hb; cases hb; simp [ha, idxOpt]
  · intro a; simp [(hall a).1, (hall a).2.2.2.1]
  · intro a; simp [(hall a).2.2.2.1, (hall a).2.2.2.2]
  · intro a st c hrun
    exact absurd hrun (by simp [(hall a).2.2.1])
  · intro a
    rcases hcur with ⟨_, h0⟩ | ⟨b, _, hb, hother⟩
    · simpa [h0 a] using hnow
    · by_cases hab : a = b
      · subst hab; simp [hb]
      · simpa [hother a hab] using hnow
  · intro p hp
    rcases hp with hp | ⟨b, hp⟩
    · simp [hq] at hp
    · exact absurd hp (by simp [(hall b).2.1])
  · intro b p hp
    exact absurd hp (by simp [(hall b).2.1])

theorem not_entered_of_idx {s : Sys} (hInv : Inv s) {b : Stage}
    (hIdx : idxOpt s.current = stageIdx b) : s.entered b = false := by
  by_contra h
  have hb : s.entered b = true := by
    cases hbe : s.entered b
    · exact absurd hbe h
    · rfl
  have := hInv.wasCur b (Or.inl hb)
  rw [hIdx] at this
  omega

theorem no_pending_src_of_idx {s : Sys} (hInv : Inv s) {b : Stage}
    (hIdx : idxOpt s.current = stageIdx b) :
    ∀ p, pendingPairs s p → p.1 ≠ b := by
  intro p hp hpb
  have h3 := (hInv.pend p hp).2.2
  rw [hpb, hIdx] at h3
  omega

theorem applyTransition_inv {s : Sys} (hInv : Inv s) {b : Stage}
    (hIdx : idxOpt s.current = stageIdx b) :
    Inv (applyTransition s b) := by
  have hEnt : s.entered b = false := not_entered_of_idx hInv hIdx
  have hExe : s.executed b = false := by rw [hInv.exec_entered b]; exact hEnt
  have hNoPend := no_pending_src_of_idx hInv hIdx
  constructor
  · intro a ha
    simp only [applyTransition, idxOpt]
    by_cases hab : a = b
    · subst hab; omega
    · have : s.entered a = true := by
        rcases ha with ha | ha
        · simpa [applyTransition, hab] using ha
        · simp only [applyTransition, Option.some.injEq] at ha
          exact absurd ha.symm hab
      have := hInv.wasCur a (Or.inl this)
      omega
  · intro a
    simp only [applyTransition]
    rw [hInv.exec_entered a]
  · intro a
    simp only [applyTransition, hExe, Bool.false_eq_true, if_false]
    by_cases hab : a = b
    · subst hab
      have h0 : s.launches a = 0 := by simp [hInv.launch_count a, hEnt]
      simp [Function.update_apply, h0]
    · simp [Function.update_apply, hab, hInv.launch_count a]
  · intro a st c hrun
    simp only [applyTransition, hExe, Bool.false_eq_true, if_false] at hrun
    by_cases hab : a = b
    · subst hab; simp [Function.update_apply] at hrun
    · rw [Function.update_apply] at hrun
      simp only [hab, if_false] at hrun
      have := hInv.exec_run a st c hrun
      simpa [applyTransition, Function.update_apply, hab] using this
  · intro a
    simp only [applyTransition, Function.update_apply]
    by_cases hab : a = b
    · simp [hab]
    · simp [hab, hInv.enter_le a]
  · intro p hp
    have hps : pendingPairs s p := by
      rcases hp with hp | hp
      · exact Or.inl (by simpa [applyTransition] using hp)
      · exact Or.inr (by simpa [applyTransition] using hp)
    obtain ⟨h1, h2, h3⟩ := hInv.pend p hps
    refine ⟨h1, ?_, ?_⟩
    · have hpb := hNoPend p hps
      simp only [applyTransition, Function.update_apply, hpb, if_false]
      exact h2
    · simp only [applyTransition, idxOpt]
      rw [hIdx] at h3
      omega
  · intro b' p hp
    exact hInv.pop_tgt b' p (by simpa [applyTransition] using hp)

theorem inv_popped_clear {s : Sys} (hInv : Inv s) (b : Stage) :
    Inv { s with popped := Function.update s.popped b none } := by
  constructor
  · exact hInv.wasCur
  · exact hInv.exec_entered
  · exact hInv.launch_count
  · exact hInv.exec_run
  · exact hInv.enter_le
  · intro p hp
    refine hInv.pend p ?_
    rcases hp with hp | ⟨b', hp⟩
    · exact Or.inl hp
    · simp only [Function.update_apply] at hp
      by_cases hbb : b' = b
      · simp [hbb] at hp
      · exact Or.inr ⟨b', by simpa [hbb] using hp⟩
  · intro b' p hp
    simp only [Function.update_apply] at hp
    by_cases hbb : b' = b
    · simp [hbb] at hp
    · exact hInv.pop_tgt b' p (by simpa [hbb] using hp)

theorem step_inv {s s' : Sys} {l : Label} (hInv : Inv s)
    (hst : Step s l s') : Inv s' := by
  cases hst with
  | tick δ hδ =>
      constructor
      · exact hInv.wasCur
      · exact hInv.exec_entered
      · exact hInv.launch_count
      · intro a st c hrun
        obtain ⟨h1, h2⟩ := hInv.exec_run a st c hrun
        exact ⟨h1, by simp only; linarith⟩
      · intro a
        have := hInv.enter_le a
        simp only
        linarith
      · intro p hp
        obtain ⟨h1, h2, h3⟩ := hInv.pend p hp
        exact ⟨h1, by simp only; linarith, h3⟩
      · exact hInv.pop_tgt
  | detectTrans b hDwell hFirst hGate hNe =>
      refine applyTransition_inv hInv ?_
      cases hc : s.current with
      | none => rw [hFirst hc]; rfl
      | some c =>
          rcases hGate c hc with hbc | hnx
          · subst hbc; exact absurd hc hNe
          · have := stageIdx_next hnx
            simp [idxOpt, this]
  | popForce b a q1 q2 hNone hQ hCur hFirstMatch =>
      constructor
      · exact hInv.wasCur
      · exact hInv.exec_entered
      · exact hInv.launch_count
      · exact hInv.exec_run
      · exact hInv.enter_le
      · intro p hp
        refine hInv.pend p ?_
        rcases hp with hp | ⟨b', hp⟩
        · refine Or.inl ?_
          rw [hQ]
          simp only [List.mem_append] at hp ⊢
          rcases hp with hp | hp
          · exact Or.inl hp
          · exact Or.inr (List.mem_cons_of_mem _ hp)
        · simp only [Function.update_apply] at hp
          by_cases hbb : b' = b
          · rw [if_pos hbb] at hp
            cases hp
            refine Or.inl ?_
            rw [hQ]
            simp
          · rw [if_neg hbb] at hp
            exact Or.inr ⟨b', hp⟩
      · intro b' p hp
        simp only [Function.update_apply] at hp
        by_cases hbb : b' = b
        · rw [if_pos hbb] at hp
          cases hp
          simp [hbb]
        · rw [if_neg hbb] at hp
          exact hInv.pop_tgt b' p hp
  | forceTrans b p hPop hCur =>
      have hpend := hInv.pend p (Or.inr ⟨b, hPop⟩)
      have hp2 : p.2 = b := hInv.pop_tgt b p hPop
      have hnx : next_stage p.1 = some b := by rw [← hp2]; exact hpend.1
      have hIdx : idxOpt s.current = stageIdx b := by
        rw [hCur]
        have := stageIdx_next hnx
        simp [idxOpt, this]
      exact inv_popped_clear (applyTransition_inv hInv hIdx) b
  | forceDrop b p hPop hCur =>
      exact inv_popped_clear hInv b
  | execBegin a h =>
      constructor
      · exact hInv.wasCur
      · exact hInv.exec_entered
      · exact hInv.launch_count
      · intro x st c hrun
        simp only [Function.update_apply] at hrun
        by_cases hxa : x = a
        · rw [if_pos hxa] at hrun
          injection hrun with h1 h2
          subst hxa
          refine ⟨?_, ?_⟩
          · rw [← h1]; exact hInv.enter_le x
          · rw [← h1, ← h2]; simp only; push_cast; linarith
        · rw [if_neg hxa] at hrun
          exact hInv.exec_run x st c hrun
      · exact hInv.enter_le
      · exact hInv.pend
      · exact hInv.pop_tgt
  | execTap a st c δ k hRun hBudget hδ hk1 hk2 =>
      have hkq : (k : ℚ) ≤ 2 := by exact_mod_cast hk2
      constructor
      · exact hInv.wasCur
      · exact hInv.exec_entered
      · exact hInv.launch_count
      · intro x st' c' hrun
        simp only [Function.update_apply] at hrun
        by_cases hxa : x = a
        · rw [if_pos hxa] at hrun
          injection hrun with h1 h2
          subst hxa
          obtain ⟨g1, g2⟩ := hInv.exec_run x st c hRun
          refine ⟨by rw [← h1]; exact g1, ?_⟩
          rw [← h1, ← h2]
          simp only
          push_cast
          linarith
        · rw [if_neg hxa] at hrun
          obtain ⟨g1, g2⟩ := hInv.exec_run x st' c' hrun
          exact ⟨g1, by simp only; linarith⟩
      · intro x
        have := hInv.enter_le x
        simp only
        linarith
      · intro p hp
        obtain ⟨h1, h2, h3⟩ := hInv.pend p hp
        exact ⟨h1, by simp only; linarith, h3⟩
      · exact hInv.pop_tgt
  | enqBudget a b st c hRun hBudget hNext hCur =>
      obtain ⟨hst1, hst2⟩ := hInv.exec_run a st c hRun
      have hc : (20 : ℚ) ≤ (c : ℚ) := by
        exact_mod_cast hBudget
      have hdwell : s.enterTime a + MIN_STAGE_DURATION ≤ s.now := by
        simp only [MIN_STAGE_DURATION]
        nlinarith
      constructor
      · exact hInv.wasCur
      · exact hInv.exec_entered
      · exact hInv.launch_count
      · intro x st' c' hrun
        simp only [Function.update_apply] at hrun
        by_cases hxa : x = a
        · rw [if_pos hxa] at hrun
          cases hrun
        · rw [if_neg hxa] at hrun
          exact hInv.exec_run x st' c' hrun
      · exact hInv.enter_le
      · intro p hp
        rcases hp with hp | ⟨b', hp⟩
        · simp only [List.mem_append, List.mem_singleton] at hp
          rcases hp with hp | hp
          · exact hInv.pend p (Or.inl hp)
          · subst hp
            refine ⟨hNext, hdwell, ?_⟩
            rw [hCur]
            rfl
        · exact hInv.pend p (Or.inr ⟨b', hp⟩)
      · exact hInv.pop_tgt
  | enqTimeout a b st c hRun hTimeout hNext hCur =>
      obtain ⟨hst1, hst2⟩ := hInv.exec_run a st c hRun
      simp only [STAGE_EXECUTION_TIMEOUT] at hTimeout
      have hdwell : s.enterTime a + MIN_STAGE_DURATION ≤ s.now := by
        simp only [MIN_STAGE_DURATION]
        linarith
      constructor
      · exact hInv.wasCur
      · exact hInv.exec_entered
      · exact hInv.launch_count
      · intro x st' c' hrun
        simp only [Function.update_apply] at hrun
        by_cases hxa : x = a
        · rw [if_pos hxa] at hrun
          cases hrun
        · rw [if_neg hxa] at hrun
          exact hInv.exec_run x st' c' hrun
      · exact hInv.enter_le
      · intro p hp
        rcases hp with hp | ⟨b', hp⟩
        · simp only [List.mem_append, List.mem_singleton] at hp
          rcases hp with hp | hp
          · exact hInv.pend p (Or.inl hp)
          · subst hp
            refine ⟨hNext, hdwell, ?_⟩
            rw [hCur]
            rfl
        · exact hInv.pend p (Or.inr ⟨b', hp⟩)
      · exact hInv.pop_tgt
  | execStop a st c hRun =>
      constructor
      · exact hInv.wasCur
      · exact hInv.exec_entered
      · exact hInv.launch_count
      · intro x st' c' hrun
        simp only [Function.update_apply] at hrun
        by_cases hxa : x = a
        · rw [if_pos hxa] at hrun
          cases hrun
        · rw [if_neg hxa] at hrun
          exact hInv.exec_run x st' c' hrun
      · exact hInv.enter_le
      · exact hInv.pend
      · exact hInv.pop_tgt

theorem reaches_inv {s t : Sys} (hInv : Inv s) (h : Reaches s t) : Inv t := by
  induction h with
  | refl => exact hInv
  | tail h l st ih => exact step_inv ih st

theorem reachable_inv {s : Sys} (h : Reachable s) : Inv s := by
  obtain ⟨s0, h0, hr⟩ := h
  exact reaches_inv (init_inv h0) hr

/-! ## Auxiliary facts about the rhythm generator -/

/-- Every delay returned by `get_next_delay` is at least `0.1` seconds:
the non-pause branch clamps with `max(0.1, ...)`, and the pause branch
returns `random.uniform(0.3, 0.8) ≥ 0.3`.  This justifies the `execTap`
step's lower bound on the slept duration. -/
theorem get_next_delay_pos (s : RhythmState) (now : ℚ) (d : Draws)
    (h : 0 ≤ d.pauseDur01) : 1/10 ≤ (get_next_delay s now d).1 := by
  unfold get_next_delay
  dsimp only
  split
  · linarith
  · simp only [sample_right_skewed_delay]
    exact le_max_left _ _

/-- Bounds of the configured `rhythm_range`s: every personality of
`_get_stage_personality` (fallback included) has
`0.15 ≤ rhythm_min ≤ rhythm_max ≤ 0.5`. -/
theorem personality_range_bounds (name : Option Stage) :
    3/20 ≤ (get_stage_personality name).rhythm_min ∧
    (get_stage_personality name).rhythm_min ≤
      (get_stage_personality name).rhythm_max ∧
    (get_stage_personality name).rhythm_max ≤ 1/2 := by
  cases name with
  | none => refine ⟨by norm_num [get_stage_personality], by norm_num [get_stage_personality], by norm_num [get_stage_personality]⟩
  | some a =>
      cases a <;>
        refine ⟨by norm_num [get_stage_personality], by norm_num [get_stage_personality], by norm_num [get_stage_personality]⟩

/-- Every `rhythm_scale` a session persona can draw lies in
`[0.85, 1.15]`. -/
theorem persona_rhythm_scale_bounds (i : Fin 4) (u : ℚ)
    (h0 : 0 ≤ u) (h1 : u ≤ 1) :
    17/20 ≤ persona_rhythm_scale i u ∧ persona_rhythm_scale i u ≤ 23/20 := by
  fin_cases i <;> simp only [persona_rhythm_scale] <;>
    constructor <;> linarith

/-- The right-skewed sampler stays inside `[rhythm_min, rhythm_max]`
whenever that interval sits inside the clamp window `[0.1, 1]` and the
Beta draw is a probability. -/
theorem sample_bounds (center rmin rmax beta : ℚ)
    (hmin : 1/10 ≤ rmin) (hmm : rmin ≤ rmax) (hmax : rmax ≤ 1)
    (hb0 : 0 ≤ beta) (hb1 : 1 ≥ beta) :
    rmin ≤ sample_right_skewed_delay center rmin rmax beta ∧
      sample_right_skewed_delay center rmin rmax beta ≤ rmax := by
  have h2 : rmin ≤ rmin + beta * (rmax - rmin) := by nlinarith
  have h3 : rmin + beta * (rmax - rmin) ≤ rmax := by nlinarith
  simp only [sample_right_skewed_delay]
  rw [min_eq_left (h3.trans hmax), max_eq_right (hmin.trans h2)]
  exact ⟨h2, h3⟩

theorem termFails_eval {fails : ℕ} {o : TermObs} {r : Bool}
    (he : min_execution_time ≤ o.elapsed) (hd : o.det = some r) :
    termFails fails o = stepFail fails r := by
  cases r <;> simp [termFails, stepFail, he, hd]

theorem termFails_skip {fails : ℕ} {o : TermObs}
    (h : ¬min_execution_time ≤ o.elapsed ∨ o.det = none) :
    termFails fails o = fails := by
  rcases h with h | h
  · simp [termFails, h]
  · simp [termFails, h]

/-- Folding the fail counter either ends in a trailing run of `false`s
of the final counter's length, or the whole list is `false`s and the
counter just accumulated. -/
theorem foldl_stepFail_cases : ∀ (l : List Bool) (a : ℕ),
    (∃ m, l = m ++ List.replicate (List.foldl stepFail a l) false ∧
      List.foldl stepFail a l ≤ l.length) ∨
    (List.foldl stepFail a l = a + l.length ∧
      l = List.replicate l.length false)
  | [], a => by
      right
      simp
  | b :: t, a => by
      have ih := foldl_stepFail_cases t (stepFail a b)
      rcases ih with ⟨m, hm, hlen⟩ | ⟨hr, ht⟩
      · left
        refine ⟨b :: m, ?_, ?_⟩
        · simp only [List.foldl_cons]
          rw [List.cons_append, ← hm]
        · simp only [List.foldl_cons, List.length_cons]
          omega
      · cases b with
        | true =>
            left
            have h0 : stepFail a true = 0 := rfl
            rw [h0] at hr
            have hfold : List.foldl stepFail a (true :: t) = t.length := by
              simp only [List.foldl_cons, h0, hr, Nat.zero_add]
            refine ⟨[true], ?_, ?_⟩
            · rw [hfold]
              conv_lhs => rw [ht]
              rfl
            · rw [hfold]
              simp
        | false =>
            right
            constructor
            · simp only [List.foldl_cons]
              rw [hr]
              have h0 : stepFail a false = a + 1 := rfl
              rw [h0]
              simp only [List.length_cons]
              omega
            · simp only [List.length_cons, List.replicate_succ]
              rw [← ht]

/-- If the fail counter reaches `3` starting from `0`, the processed
check sequence contains three consecutive `false`s. -/
theorem three_consecutive_of_foldl {l : List Bool}
    (h : 3 ≤ List.foldl stepFail 0 l) :
    ∃ m1 m2, l = m1 ++ (false :: false :: false :: m2) := by
  rcases foldl_stepFail_cases l 0 with ⟨m, hm, _⟩ | ⟨hr, hl⟩
  · set r := List.foldl stepFail 0 l with hrdef
    obtain ⟨k, hk⟩ : ∃ k, r = 3 + k := ⟨r - 3, by omega⟩
    refine ⟨m, List.replicate k false, ?_⟩
    rw [hm, hk, List.replicate_add]
    rfl
  · rw [Nat.zero_add] at hr
    obtain ⟨k, hk⟩ : ∃ k, l.length = 3 + k := ⟨l.length - 3, by omega⟩
    refine ⟨[], List.replicate k false, ?_⟩
    rw [hl, hk, List.replicate_add]
    rfl

theorem evalChecks_cons_eval {o : TermObs} {rest : List TermObs} {r : Bool}
    (he : min_execution_time ≤ o.elapsed) (hd : o.det = some r) :
    evalChecks (o :: rest) = r :: evalChecks rest := by
  simp [evalChecks, List.filterMap_cons, he, hd]

theorem evalChecks_cons_skip {o : TermObs} {rest : List TermObs}
    (h : ¬min_execution_time ≤ o.elapsed ∨ o.det = none) :
    evalChecks (o :: rest) = evalChecks rest := by
  rcases h with h | h
  · simp [evalChecks, List.filterMap_cons, h]
  · simp [evalChecks, List.filterMap_cons, h]

/-- A `disappeared` exit means some prefix of the evaluated check
sequence drives the fail counter to the threshold. -/
theorem runTerminal_disappeared_aux (stage : Stage) (duration : ℚ) :
    ∀ (obs : List TermObs) (c f : ℕ),
      (runTerminal stage duration c f obs).2 = .disappeared →
      ∃ l1 l2, evalChecks obs = l1 ++ l2 ∧
        3 ≤ List.foldl stepFail f l1
  | [], c, f, h => by simp [runTerminal] at h
  | o :: rest, c, f, h => by
      simp only [runTerminal] at h
      by_cases h1 : o.cur ≠ some stage
      · rw [if_pos h1] at h
        simp at h
      rw [if_neg h1] at h
      by_cases h2 : min_execution_time ≤ o.elapsed ∧ o.det = some false ∧
          STAGE_DISAPPEAR_THRESHOLD ≤ termFails f o
      · obtain ⟨h2a, h2b, h2c⟩ := h2
        refine ⟨[false], evalChecks rest, ?_, ?_⟩
        · exact evalChecks_cons_eval h2a h2b
        · have : termFails f o = stepFail f false := termFails_eval h2a h2b
          simp only [List.foldl_cons, List.foldl_nil]
          rw [← this]
          exact h2c
      · rw [if_neg h2] at h
        by_cases h3 : duration ≤ o.elapsed
        · rw [if_pos h3] at h
          simp at h
        rw [if_neg h3] at h
        by_cases h4 : MAX_CLICKS_PER_STAGE ≤ c
        · rw [if_pos h4] at h
          simp at h
        rw [if_neg h4] at h
        obtain ⟨l1, l2, hsplit, hfold⟩ :=
          runTerminal_disappeared_aux stage duration rest _ (termFails f o) h
        by_cases h5 : min_execution_time ≤ o.elapsed
        · cases hdet : o.det with
          | none =>
              refine ⟨l1, l2, ?_, ?_⟩
              · rw [evalChecks_cons_skip (Or.inr hdet), hsplit]
              · rwa [termFails_skip (Or.inr hdet)] at hfold
          | some r =>
              refine ⟨r :: l1, l2, ?_, ?_⟩
              · rw [evalChecks_cons_eval h5 hdet, hsplit]
                rfl
              · simp only [List.foldl_cons]
                rwa [termFails_eval h5 hdet] at hfold
        · refine ⟨l1, l2, ?_, ?_⟩
          · rw [evalChecks_cons_skip (Or.inl h5), hsplit]
          · rwa [termFails_skip (Or.inl h5)] at hfold

/-- Tap-count bound of the non-terminal executor loop: it never exceeds
the budget by more than the one extra mistake double-tap of the final
iteration. -/
theorem runNonTerminal_clicks_le (stage nextS : Stage) :
    ∀ (obs : List IterObs) (c : ℕ), c ≤ MAX_CLICKS_PER_STAGE + 1 →
      (runNonTerminal stage nextS c obs).1 ≤ MAX_CLICKS_PER_STAGE + 1
  | [], c, hc => hc
  | o :: rest, c, hc => by
      simp only [runNonTerminal]
      by_cases h1 : o.cur = some nextS
      · rw [if_pos h1]; exact hc
      rw [if_neg h1]
      by_cases h2 : MAX_CLICKS_PER_STAGE ≤ c
      · rw [if_pos h2]; exact hc
      rw [if_neg h2]
      by_cases h3 : STAGE_EXECUTION_TIMEOUT ≤ o.elapsed
      · rw [if_pos h3]; exact hc
      rw [if_neg h3]
      refine runNonTerminal_clicks_le stage nextS rest _ ?_
      simp only [MAX_CLICKS_PER_STAGE] at h2 ⊢
      split <;> omega

/-- Tap-count bound of the last-stage executor loop: same bound as the
non-terminal one, via the budget break of the terminal branch. -/
theorem runTerminal_clicks_le (stage : Stage) (duration : ℚ) :
    ∀ (obs : List TermObs) (c f : ℕ), c ≤ MAX_CLICKS_PER_STAGE + 1 →
      (runTerminal stage duration c f obs).1 ≤ MAX_CLICKS_PER_STAGE + 1
  | [], c, f, hc => hc
  | o :: rest, c, f, hc => by
      simp only [runTerminal]
      by_cases h1 : o.cur ≠ some stage
      · rw [if_pos h1]; exact hc
      rw [if_neg h1]
      by_cases h2 : min_execution_time ≤ o.elapsed ∧ o.det = some false ∧
          STAGE_DISAPPEAR_THRESHOLD ≤ termFails f o
      · rw [if_pos h2]; exact hc
      rw [if_neg h2]
      by_cases h3 : duration ≤ o.elapsed
      · rw [if_pos h3]; exact hc
      rw [if_neg h3]
      by_cases h4 : MAX_CLICKS_PER_STAGE ≤ c
      · rw [if_pos h4]; exact hc
      rw [if_neg h4]
      refine runTerminal_clicks_le stage duration rest _ _ ?_
      simp only [MAX_CLICKS_PER_STAGE] at h4 ⊢
      split <;> omega

theorem init_sys0 : Init sys0 :=
  ⟨le_refl 0, rfl, fun _ => ⟨rfl, rfl, rfl, rfl, rfl⟩,
    Or.inl ⟨rfl, fun _ => rfl⟩⟩

theorem init_sys1 : Init sys1 :=
  ⟨le_refl 0, rfl, fun _ => ⟨rfl, rfl, rfl, rfl, rfl⟩,
    Or.inr ⟨.stage1, rfl, rfl, fun _ _ => rfl⟩⟩

theorem reaches_sys1T : Reaches sys1 sys1T :=
  .tail (.refl sys1) (.tick 10) (Step.tick 10 (by norm_num))

theorem npIndex_isSome {n : ℕ} {i : ℤ} (h1 : -(n : ℤ) ≤ i)
    (h2 : i < (n : ℤ)) : ∃ j, npIndex n i = some j := by
  unfold npIndex
  by_cases h3 : 0 ≤ i
  · rw [if_pos h3, if_pos h2]
    exact ⟨_, rfl⟩
  · rw [if_neg h3, if_pos (by omega : (0 : ℤ) ≤ (n : ℤ) + i)]
    exact ⟨_, rfl⟩

/-! ## Claim theorems -/

/-- C1 (confirmed): every write of `current_stage` performed by a
classifier thread — by the double-checked detection block or by the
forced-advance block of `thread_detect_stage` — either sets it from
`None` to the first configured stage, or from the current stage to that
stage's configured `next_stage`; in particular the written stage always
differs from the stage that was current, so transitions into any other
stage (including re-entry into the current stage) never execute a
transition block. -/
theorem C1_current_stage_writes (s s' : Sys) (b : Stage)
    (hr : Reachable s)
    (hstep : Step s (.detectTrans b) s' ∨ Step s (.forceTrans b) s') :
    s'.current = some b ∧ s.current ≠ some b ∧
      ((s.current = none ∧ b = first_stage) ∨
       (∃ a, s.current = some a ∧ next_stage a = some b)) := by
  have hInv := reachable_inv hr
  rcases hstep with h | h
  · cases h with
    | detectTrans _ hDwell hFirst hGate hNe =>
        refine ⟨rfl, hNe, ?_⟩
        cases hc : s.current with
        | none => exact Or.inl ⟨rfl, hFirst hc⟩
        | some c =>
            rcases hGate c hc with hbc | hnx
            · rw [hbc] at hNe
              exact absurd hc hNe
            · exact Or.inr ⟨c, rfl, hnx⟩
  · cases h with
    | forceTrans _ p hPop hCur =>
        have hp2 : p.2 = b := hInv.pop_tgt b p hPop
        have hpend := hInv.pend p (Or.inr ⟨b, hPop⟩)
        have hnx : next_stage p.1 = some b := by rw [← hp2]; exact hpend.1
        have hidx := stageIdx_next hnx
        refine ⟨rfl, ?_, Or.inr ⟨p.1, hCur, hnx⟩⟩
        rw [hCur]
        intro heq
        injection heq with heq
        rw [heq] at hidx
        omega

/-- Witness for C1: from the pristine engine state, the detection block
fires for stage1 and writes `current_stage` from `None` to the first
configured stage. -/
theorem C1_witness :
    (applyTransition sys0 .stage1).current = some Stage.stage1 ∧
      sys0.current ≠ some Stage.stage1 ∧
      ((sys0.current = none ∧ Stage.stage1 = first_stage) ∨
       (∃ a, sys0.current = some a ∧ next_stage a = some Stage.stage1)) :=
  C1_current_stage_writes sys0 (applyTransition sys0 .stage1) .stage1
    ⟨sys0, init_sys0, .refl sys0⟩
    (Or.inl (Step.detectTrans .stage1
      (fun _ hc => Option.noConfusion hc)
      (fun _ => rfl)
      (fun _ hc => Option.noConfusion hc)
      (fun h => Option.noConfusion h)))

/-- C2 (amended, corrected): across one run, the action executor thread
for a stage is started at most once, and exactly once for every stage
written to `current_stage` by a classifier transition (detection or
forced advance) — the membership check and insertion into
`stage_executed` happen under the same `stage_lock` acquisition as the
transition.  A stage made current only by the startup `initial_stage`
assignment is *not* classifier-entered and gets no executor. -/
theorem C2_single_launch (s : Sys) (hr : Reachable s) (a : Stage) :
    s.launches a = if s.entered a = true then 1 else 0 :=
  (reachable_inv hr).launch_count a

/-- Witness for C2's amended theorem at the pristine initial state and
stage1. -/
theorem C2_witness :
    sys0.launches Stage.stage1 =
      if sys0.entered Stage.stage1 = true then 1 else 0 :=
  C2_single_launch sys0 ⟨sys0, init_sys0, .refl sys0⟩ .stage1

/-- Counterexample for C2 as stated: in the run that starts with
`initial_stage = "stage1"` (exactly what `main()` passes) and then sits
idle until shutdown, stage1 becomes current — by the startup write, not
a classifier transition — yet no action executor is ever started for
it, refuting "exactly once per stage that ever becomes current". -/
theorem C2_counterexample :
    Init sys1 ∧ sys1.current = some Stage.stage1 ∧
      Reaches sys1 sys1T ∧ sys1T.current = some Stage.stage1 ∧
      sys1T.launches Stage.stage1 = 0 :=
  ⟨init_sys1, rfl, reaches_sys1T, rfl, rfl⟩

/-- C3 (confirmed): whenever a classifier transition (detection or
forced advance) supersedes the current stage `a`, at least
`MIN_STAGE_DURATION` has elapsed since `a`'s recorded entry timestamp:
the detection block re-checks the dwell under the lock, and a
forced-advance request can only have been enqueued after its source
stage had already been current for at least the executor's timeout (4 s)
or the time needed for `MAX_CLICKS_PER_STAGE` taps at `≥ 0.1` s rhythm
delay each — both larger than the minimum dwell. -/
theorem C3_min_dwell (s s' : Sys) (b a : Stage)
    (hr : Reachable s)
    (hstep : Step s (.detectTrans b) s' ∨ Step s (.forceTrans b) s')
    (hcur : s.current = some a) :
    MIN_STAGE_DURATION ≤ s.now - s.enterTime a := by
  rcases hstep with h | h
  · cases h with
    | detectTrans _ hDwell hFirst hGate hNe => exact hDwell a hcur
  · cases h with
    | forceTrans _ p hPop hCur =>
        have hInv := reachable_inv hr
        have hpend := hInv.pend p (Or.inr ⟨b, hPop⟩)
        have hpa : p.1 = a := by
          rw [hcur] at hCur
          injection hCur with h
          exact h.symm
        rw [hpa] at hpend
        linarith [hpend.2.1]

/-- Witness for C3: after ten idle seconds in stage1, the detection
block transitions to stage2; stage1's dwell (10 s) meets the minimum. -/
theorem C3_witness :
    MIN_STAGE_DURATION ≤ sys1T.now - sys1T.enterTime Stage.stage1 :=
  C3_min_dwell sys1T (applyTransition sys1T .stage2) .stage2 .stage1
    ⟨sys1, init_sys1, reaches_sys1T⟩
    (Or.inl (Step.detectTrans .stage2
      (by
        intro c hc
        have hc' : some Stage.stage1 = some c := hc
        injection hc' with hc'
        subst hc'
        show (1 : ℚ)/4 ≤ (0 + 10 : ℚ) - 0
        norm_num)
      (fun h => Option.noConfusion h)
      (by
        intro c hc
        have hc' : some Stage.stage1 = some c := hc
        injection hc' with hc'
        subst hc'
        exact Or.inr rfl)
      (fun h => Stage.noConfusion (Option.some.inj h))))
    rfl

/-- C4 (amended, corrected): a non-terminal action executor performs at
most `MAX_CLICKS_PER_STAGE + 1` taps in total before it stops (on any
exit path, the budget path with its forced-advance enqueue included):
the budget is checked only at the top of each iteration, and one
iteration can add two taps (a mistake double-tap plus the regular tap),
so the configured budget can be exceeded by exactly one tap. -/
theorem C4_click_budget (stage nextS : Stage) (obs : List IterObs) :
    (runNonTerminal stage nextS 0 obs).1 ≤ MAX_CLICKS_PER_STAGE + 1 :=
  runNonTerminal_clicks_le stage nextS obs 0 (Nat.zero_le _)

/-- Counterexample for C4 as stated: with a mistake double-tap on every
iteration, the executor for stage1 performs 21 taps — one more than
`MAX_CLICKS_PER_STAGE = 20` — before the budget check fires and the
forced-advance request is enqueued. -/
theorem C4_counterexample :
    runNonTerminal Stage.stage1 Stage.stage2 0 c4Obs =
      (21, ExecOutcome.budget true) ∧ MAX_CLICKS_PER_STAGE < 21 :=
  ⟨by decide, by decide⟩

/-- C6 (amended, corrected): the terminal stage's executor stops not
only on the randomized duration window, the disappearance heuristic,
loss of current-stage status, or shutdown, but also on the max-click
budget (`MAX_CLICKS_PER_STAGE`, checked each iteration, without
enqueueing any forced advance): its total taps never exceed
`MAX_CLICKS_PER_STAGE + 1`. -/
theorem C6_terminal_budget (stage : Stage) (duration : ℚ)
    (obs : List TermObs) :
    (runTerminal stage duration 0 0 obs).1 ≤ MAX_CLICKS_PER_STAGE + 1 :=
  runTerminal_clicks_le stage duration obs 0 0 (Nat.zero_le _)

/-- Counterexample for C6 as stated: the terminal executor stops with
outcome `budget` — a condition other than the duration window, the
disappearance heuristic, loss of current-stage status, or shutdown. -/
theorem C6_counterexample :
    runTerminal Stage.stage4 2 0 0 c6Obs = (21, TermOutcome.budget) ∧
      LAST_STAGE_EXECUTION_DURATION_MIN ≤ 2 ∧
      (2 : ℚ) ≤ LAST_STAGE_EXECUTION_DURATION_MAX := by
  refine ⟨?_, by norm_num [LAST_STAGE_EXECUTION_DURATION_MIN],
    by norm_num [LAST_STAGE_EXECUTION_DURATION_MAX]⟩
  norm_num [c6Obs, runTerminal, termFails, min_execution_time,
    LAST_STAGE_EXECUTION_DURATION_MIN, MAX_CLICKS_PER_STAGE,
    STAGE_DISAPPEAR_THRESHOLD, List.replicate]

/-- C7 (confirmed): the terminal executor's disappearance early-exit
never fires while every iteration is still before
`LAST_STAGE_EXECUTION_DURATION_MIN * 0.5` elapsed, regardless of
detection results; and whenever it fires, the sequence of evaluated
re-detection checks (those at iterations past the half-minimum with a
frame available) contains `STAGE_DISAPPEAR_THRESHOLD = 3` consecutive
misses — a successful check resets the streak, so isolated misses never
trigger it. -/
theorem C7_disappearance_guard (stage : Stage) (duration : ℚ)
    (obs : List TermObs) :
    ((∀ o ∈ obs, o.elapsed < min_execution_time) →
       (runTerminal stage duration 0 0 obs).2 ≠ .disappeared) ∧
    ((runTerminal stage duration 0 0 obs).2 = .disappeared →
       ∃ m1 m2, evalChecks obs = m1 ++ (false :: false :: false :: m2)) := by
  have main : (runTerminal stage duration 0 0 obs).2 = .disappeared →
      ∃ m1 m2, evalChecks obs = m1 ++ (false :: false :: false :: m2) := by
    intro h
    obtain ⟨l1, l2, hsplit, hfold⟩ :=
      runTerminal_disappeared_aux stage duration obs 0 0 h
    obtain ⟨m1, m2, hm⟩ := three_consecutive_of_foldl hfold
    refine ⟨m1, m2 ++ l2, ?_⟩
    rw [hsplit, hm]
    simp
  refine ⟨?_, main⟩
  intro hall h
  obtain ⟨m1, m2, hm⟩ := main h
  have hnil : evalChecks obs = [] := by
    rw [evalChecks, List.filterMap_eq_nil_iff]
    intro o ho
    rw [if_neg (not_le.mpr (hall o ho))]
  rw [hnil] at hm
  have hlen := congrArg List.length hm
  simp only [List.length_nil, List.length_append, List.length_cons] at hlen
  omega

/-- Witness for C7: a run that exits on the disappearance heuristic
indeed shows three consecutive misses among its evaluated checks. -/
theorem C7_witness :
    (runTerminal Stage.stage4 3 0 0 c7Obs).2 = TermOutcome.disappeared ∧
      (∃ m1 m2, evalChecks c7Obs = m1 ++ (false :: false :: false :: m2)) := by
  have h : (runTerminal Stage.stage4 3 0 0 c7Obs).2 =
      TermOutcome.disappeared := by
    norm_num [c7Obs, runTerminal, termFails, min_execution_time,
      LAST_STAGE_EXECUTION_DURATION_MIN, MAX_CLICKS_PER_STAGE,
      STAGE_DISAPPEAR_THRESHOLD, List.replicate]
  exact ⟨h, (C7_disappearance_guard Stage.stage4 3 c7Obs).2 h⟩

/-- C5 (amended, corrected): `_detect_stage` fails closed — returning
no-match for the whole stage without an exception — for every sample
point whose coordinate is *at or past* the frame bounds (`x ≥ width` or
`y ≥ height` on a full frame; a non-retained row or `x ≥` row width on a
slim frame), provided no sample point has a coordinate below the
negated bound (such a coordinate instead raises `IndexError`, modelled
as `none`).  Negative coordinates down to `-width`/`-height` are *not*
rejected: numpy indexes them from the end of the frame, and the stage
can still match. -/
theorem C5_oob_fail_closed :
    (∀ (f : FullFrame) (ds : List Detector),
      (∀ d ∈ ds, -(f.width : ℤ) ≤ d.x ∧ -(f.height : ℤ) ≤ d.y) →
      (∃ d ∈ ds, (f.width : ℤ) ≤ d.x ∨ (f.height : ℤ) ≤ d.y) →
      detect_stage_full f ds = some false) ∧
    (∀ (g : SlimFrame) (ds : List Detector),
      (∀ d ∈ ds, rowLowOk g d) →
      (∃ d ∈ ds, rowOob g d) →
      detect_stage_slim g ds = some false) := by
  constructor
  · intro f ds
    induction ds with
    | nil =>
        intro _ hex
        simp at hex
    | cons d rest ih =>
        intro hall hex
        simp only [detect_stage_full]
        by_cases hb : (f.height : ℤ) ≤ d.y ∨ (f.width : ℤ) ≤ d.x
        · rw [if_pos hb]
        · rw [if_neg hb]
          push_neg at hb
          obtain ⟨hdx, hdy⟩ := hall d (List.mem_cons_self d rest)
          obtain ⟨yi, hyi⟩ := npIndex_isSome hdy hb.1
          obtain ⟨xi, hxi⟩ := npIndex_isSome hdx hb.2
          rw [hyi, hxi]
          have hex' : ∃ d' ∈ rest,
              (f.width : ℤ) ≤ d'.x ∨ (f.height : ℤ) ≤ d'.y := by
            rcases hex with ⟨d', hd', hoob⟩
            rcases List.mem_cons.mp hd' with heq | hd'
            · exfalso
              rw [heq] at hoob
              rcases hoob with h | h
              · omega
              · omega
            · exact ⟨d', hd', hoob⟩
          dsimp only
          split
          · exact ih (fun d' hd' => hall d' (List.mem_cons_of_mem _ hd'))
              hex'
          · rfl
  · intro g ds
    induction ds with
    | nil =>
        intro _ hex
        simp at hex
    | cons d rest ih =>
        intro hall hex
        simp only [detect_stage_slim]
        cases hrow : g.rows d.y with
        | none => rfl
        | some wr =>
            dsimp only
            by_cases hw : (wr.1 : ℤ) ≤ d.x
            · rw [if_pos hw]
            · rw [if_neg hw]
              have hlow : -(wr.1 : ℤ) ≤ d.x := by
                have := hall d (List.mem_cons_self d rest)
                rw [rowLowOk, hrow] at this
                exact this
              obtain ⟨xi, hxi⟩ := npIndex_isSome hlow (lt_of_not_le hw)
              rw [hxi]
              have hex' : ∃ d' ∈ rest, rowOob g d' := by
                rcases hex with ⟨d', hd', hoob⟩
                rcases List.mem_cons.mp hd' with heq | hd'
                · exfalso
                  rw [heq, rowOob, hrow] at hoob
                  exact hw hoob
                · exact ⟨d', hd', hoob⟩
              dsimp only
              split
              · exact ih
                  (fun d' hd' => hall d' (List.mem_cons_of_mem _ hd'))
                  hex'
              · rfl

/-- Counterexample for C5 as stated: a sample point with the
out-of-bounds coordinate `x = -1` does *not* make the stage a no-match:
numpy wraps the index to column `width - 1 = 3`, the wrapped pixel
matches, and `_detect_stage` reports a match for the whole stage. -/
theorem C5_counterexample :
    c5Det.x < 0 ∧ detect_stage_full c5Frame [c5Det] = some true :=
  ⟨by decide, by decide⟩

/-- Witness for C5's amended theorem: an x coordinate at the frame width
(full frame) and a non-retained row (slim frame) both fail closed. -/
theorem C5_witness :
    detect_stage_full c5wFrame [c5wDet] = some false ∧
      detect_stage_slim c5wSlim [c5wSlimDet] = some false := by
  constructor
  · refine C5_oob_fail_closed.1 c5wFrame [c5wDet] ?_ ?_
    · intro d hd
      simp only [List.mem_singleton] at hd
      subst hd
      constructor <;> decide
    · exact ⟨c5wDet, List.mem_singleton_self _, Or.inl (by decide)⟩
  · refine C5_oob_fail_closed.2 c5wSlim [c5wSlimDet] ?_ ?_
    · intro d hd
      simp only [List.mem_singleton] at hd
      subst hd
      rw [rowLowOk]
      simp [c5wSlim, c5wSlimDet]
    · refine ⟨c5wSlimDet, List.mem_singleton_self _, ?_⟩
      rw [rowOob]
      simp [c5wSlim, c5wSlimDet]

/-- C8 (confirmed): for every stage name (the four configured ones and
the fallback alike) under any session-persona `rhythm_scale` the catalog
can draw, every non-pause delay returned by `get_next_delay` lies within
the personality's scaled `[rhythm_range[0], rhythm_range[1]]`: the
scaled ranges all sit inside the sampler's clamp window `[0.1, 1]`, so
the clamp never moves a sampled delay out of range. -/
theorem C8_rhythm_bounds (name : Option Stage) (i : Fin 4)
    (u ps ms ts : ℚ) (s : RhythmState) (now : ℚ) (d : Draws)
    (hu0 : 0 ≤ u) (hu1 : u ≤ 1)
    (hpers : s.stage_personality =
      scale_personality (get_stage_personality name)
        (persona_rhythm_scale i u) ps ms ts)
    (hb0 : 0 ≤ d.beta) (hb1 : d.beta ≤ 1)
    (hnp : (get_next_delay s now d).2.1 = false) :
    s.stage_personality.rhythm_min ≤ (get_next_delay s now d).1 ∧
      (get_next_delay s now d).1 ≤ s.stage_personality.rhythm_max := by
  obtain ⟨hrs1, hrs2⟩ := persona_rhythm_scale_bounds i u hu0 hu1
  obtain ⟨hm1, hm2, hm3⟩ := personality_range_bounds name
  have hrs0 : (0 : ℚ) ≤ persona_rhythm_scale i u := by linarith
  have hrmin : 1/10 ≤ s.stage_personality.rhythm_min := by
    rw [hpers]
    simp only [scale_personality]
    nlinarith
  have hminmax : s.stage_personality.rhythm_min ≤
      s.stage_personality.rhythm_max := by
    rw [hpers]
    simp only [scale_personality]
    nlinarith
  have hrmax : s.stage_personality.rhythm_max ≤ 1 := by
    rw [hpers]
    simp only [scale_personality]
    nlinarith
  unfold get_next_delay at hnp ⊢
  dsimp only at hnp ⊢
  split_ifs at hnp ⊢ with hcond
  dsimp only
  exact sample_bounds _ _ _ _ hrmin hminmax hrmax hb0 hb1

/-- Witness for C8 at a concrete fresh stage2 rhythm state. -/
theorem C8_witness :
    (initRhythm c8Pers 0).stage_personality.rhythm_min ≤
        (get_next_delay (initRhythm c8Pers 0) 0 c8Draws).1 ∧
      (get_next_delay (initRhythm c8Pers 0) 0 c8Draws).1 ≤
        (initRhythm c8Pers 0).stage_personality.rhythm_max := by
  refine C8_rhythm_bounds (some .stage2) 0 0 1 1 1
    (initRhythm c8Pers 0) 0 c8Draws (le_refl 0) (by norm_num) rfl
    (by norm_num [c8Draws]) (by norm_num [c8Draws]) ?_
  norm_num [get_next_delay, should_take_long_pause, c8Pers, c8Draws,
    initRhythm, scale_personality, get_stage_personality,
    persona_rhythm_scale, calculate_target_rhythm, apply_momentum]

/-- C9 (amended, corrected): `get_next_delay` takes the long-pause
branch only when at least 3 clicks have been executed since the *stage
began* (`click_count_in_stage`, which is reset on a stage change but
*not* on a pause) and the cooldown window since the previous long pause
has elapsed. -/
theorem C9_pause_guard (s : RhythmState) (now : ℚ) (d : Draws)
    (h : (get_next_delay s now d).2.1 = true) :
    3 ≤ s.click_count_in_stage ∧
      s.long_pause_cooldown ≤ now - s.last_long_pause_time := by
  unfold get_next_delay at h
  dsimp only at h
  split_ifs at h with hcond
  unfold should_take_long_pause at hcond
  dsimp only at hcond
  split_ifs at hcond with h1 h2
  exact ⟨of_decide_eq_true hcond, not_lt.mp h1⟩

/-- Witness for C9's amended theorem: a stage1 state with three clicks
executed and the cooldown long expired takes the pause branch. -/
theorem C9_witness :
    3 ≤ ({ initRhythm (get_stage_personality (some .stage1)) 0 with
            click_count_in_stage := 3 } : RhythmState).click_count_in_stage ∧
      ({ initRhythm (get_stage_personality (some .stage1)) 0 with
            click_count_in_stage := 3 } : RhythmState).long_pause_cooldown ≤
        10 - ({ initRhythm (get_stage_personality (some .stage1)) 0 with
            click_count_in_stage := 3 } : RhythmState).last_long_pause_time := by
  refine C9_pause_guard _ 10 cDraws ?_
  norm_num [get_next_delay, should_take_long_pause, cDraws, initRhythm,
    get_stage_personality, calculate_target_rhythm, apply_momentum]

/-- Counterexample for C9 as stated: the second logged call returns a
long pause although `0` calls (fewer than 3) have occurred since the
previous long pause — the guard counts clicks since the stage began, not
calls since the last pause — refuting "only when at least 3 calls have
occurred since the last long pause". -/
theorem C9_counterexample :
    (runRhythmOps (initRhythm (get_stage_personality (some .stage1)) 0)
        0 c9Ops).2.2 = [(true, 0), (true, 0)] ∧ ¬(3 ≤ 0) := by
  constructor
  · norm_num [runRhythmOps, c9Ops, cDraws, on_click_executed, initRhythm,
      get_next_delay, should_take_long_pause, get_stage_personality,
      calculate_target_rhythm, apply_momentum, sample_right_skewed_delay]
  · omega

/-- C10 (confirmed): the smoothed `current_rhythm` and its
`rhythm_momentum` never influence the returned non-pause delay — two
states that agree on the personality, the stage clock, the click count
and the pause bookkeeping, and receive the same draws, make the same
pause decision and return the same non-pause delay:
`_sample_right_skewed_delay` ignores its `center` argument. -/
theorem C10_momentum_noninterference (s1 s2 : RhythmState) (now : ℚ)
    (d : Draws)
    (hp : s1.stage_personality = s2.stage_personality)
    (hst : s1.stage_start_time = s2.stage_start_time)
    (hcc : s1.click_count_in_stage = s2.click_count_in_stage)
    (hlp : s1.last_long_pause_time = s2.last_long_pause_time)
    (hcd : s1.long_pause_cooldown = s2.long_pause_cooldown) :
    (get_next_delay s1 now d).2.1 = (get_next_delay s2 now d).2.1 ∧
      ((get_next_delay s1 now d).2.1 = false →
        (get_next_delay s1 now d).1 = (get_next_delay s2 now d).1) := by
  unfold get_next_delay should_take_long_pause sample_right_skewed_delay
  dsimp only
  rw [hp, hst, hcc, hlp, hcd]
  constructor
  · split_ifs <;> rfl
  · intro _
    split_ifs <;> rfl

/-- Witness for C10 at two concrete states differing only in
`current_rhythm` and `rhythm_momentum`. -/
theorem C10_witness :
    (get_next_delay c10A 1 cDraws).2.1 = (get_next_delay c10B 1 cDraws).2.1 ∧
      ((get_next_delay c10A 1 cDraws).2.1 = false →
        (get_next_delay c10A 1 cDraws).1 = (get_next_delay c10B 1 cDraws).1) :=
  C10_momentum_noninterference c10A c10B 1 cDraws rfl rfl rfl rfl rfl

end FastPurchase
